import Mathlib

/-!
Verification development for the BTC perpetual-futures trading decision engine
(`src/tools/btc_perp_trader/strategies.py`).  The data model (orders, positions),
the TCL and SMOG strategy operations (setup detection, entry planning, position
management, exit checks) are embedded shallowly below.  Prices and sizes are
modelled over `ℚ` (the source uses 64-bit floats; all arithmetic here is exact).
The `indicators` module is imported by the source but is not part of the
repository snapshot: the two indicator functions that the spec fully pins down
(`fibonacci_retracement`, `detect_fvgs`) are modelled from the spec, and the
remaining indicator functions are taken as parameters (an `Indicators` record),
so theorems about setup detection hold for every implementation of them.
-/

namespace BtcPerp

/-- Order/position side: the Python code uses the strings "long"/"short". -/
inductive Side where
  | long
  | short
deriving DecidableEq, Repr

/-- Order status: the Python code uses the strings "pending"/"filled"/"cancelled". -/
inductive OrderStatus where
  | pending
  | filled
  | cancelled
deriving DecidableEq, Repr

/-- Order type: the Python code uses the strings "entry"/"limit1"/"limit2". -/
inductive OrderType where
  | entry
  | limit1
  | limit2
deriving DecidableEq, Repr

/-- `Order` dataclass from the source. -/
structure Order where
  side : Side
  entry_price : ℚ
  size_usd : ℚ
  tp : ℚ
  sl : ℚ
  order_type : OrderType
  status : OrderStatus := OrderStatus.pending
deriving DecidableEq, Repr

/-- `Position` dataclass from the source.  The `metadata` diagnostic snapshot is
not modelled (no claim mentions it); `status` keeps the source's string values
"open"/"closed". -/
structure Position where
  strategy : String
  side : Side
  orders : List Order := []
  avg_entry : ℚ := 0
  total_size : ℚ := 0
  tp : ℚ := 0
  sl : ℚ := 0
  original_sl : ℚ := 0
  sl_moved_to_be : Bool := false
  opened_at : ℚ := 0
  pnl : ℚ := 0
  status : String := "open"
deriving DecidableEq, Repr

/-- `Position.fill_order` from the source: marks the order filled and updates
`total_size` and `avg_entry`.  The Python method mutates the order and the
position in place; here both updated values are returned. -/
def Position.fillOrder (p : Position) (o : Order) (fill_price : ℚ) : Position × Order :=
  let o2 : Order := { o with status := OrderStatus.filled }
  let old_notional : ℚ := if 0 < p.total_size then p.avg_entry * p.total_size else 0
  let new_notional : ℚ := fill_price * o.size_usd
  let ts : ℚ := p.total_size + o.size_usd
  let ae : ℚ := if 0 < ts then (old_notional + new_notional) / ts else fill_price
  ({ p with total_size := ts, avg_entry := ae }, o2)

/-- `Position.unrealized_pnl` from the source. -/
def Position.unrealizedPnl (p : Position) (current_price : ℚ) : ℚ :=
  if p.total_size = 0 then 0
  else match p.side with
    | Side.long => (current_price - p.avg_entry) / p.avg_entry * p.total_size
    | Side.short => (p.avg_entry - current_price) / p.avg_entry * p.total_size

/-- Candle window: the parallel `open`/`high`/`low`/`close` arrays of the Python
`candles` dict (`open` is a Lean keyword, hence `openp`). -/
structure Candles where
  openp : List ℚ
  high : List ℚ
  low : List ℚ
  close : List ℚ

/-- Python slice `l[-n:]`. -/
def lastN (n : Nat) (l : List ℚ) : List ℚ := l.drop (l.length - n)

/-- `np.max` over a list (only used on nonempty slices). -/
def maxList : List ℚ → ℚ
  | [] => 0
  | [x] => x
  | x :: y :: rest => max x (maxList (y :: rest))

/-- `np.min` over a list (only used on nonempty slices). -/
def minList : List ℚ → ℚ
  | [] => 0
  | [x] => x
  | x :: y :: rest => min x (minList (y :: rest))

/-- Fair-value-gap polarity (also used for RSI divergence / ChoCH polarity). -/
inductive FvgType where
  | bullish
  | bearish
deriving DecidableEq, Repr

/-- A fair value gap as produced by the `indicators` module. -/
structure Fvg where
  ftype : FvgType
  top : ℚ
  bottom : ℚ
  midpoint : ℚ
deriving DecidableEq, Repr

/-- The three Fibonacci entry levels returned by `fibonacci_retracement`. -/
structure FibLevels where
  entry : ℚ
  limit1 : ℚ
  limit2 : ℚ
deriving DecidableEq, Repr

/-- Modelled from the spec: `fibonacci_retracement` from the `indicators` module
(absent from `src/`).  Levels at 0.236, 0.382, 0.618 of the high→low range; for
longs these are pullback prices below `high`, for shorts pullup prices above
`low`; labeled `entry` (0.236), `limit1` (0.382), `limit2` (0.618). -/
def fibonacci_retracement (high low : ℚ) (direction : Side) : FibLevels :=
  let d := high - low
  match direction with
  | Side.long =>
      { entry := high - 236/1000 * d, limit1 := high - 382/1000 * d, limit2 := high - 618/1000 * d }
  | Side.short =>
      { entry := low + 236/1000 * d, limit1 := low + 382/1000 * d, limit2 := low + 618/1000 * d }

/-- Modelled from the spec: `detect_fvgs` from the `indicators` module (absent
from `src/`).  A fair value gap exists at bar i (2 ≤ i) when low[i] > high[i-2]
(bullish, bottom = high[i-2], top = low[i], midpoint their average) or
high[i] < low[i-2] (bearish, symmetric); all gaps whose bar index lies within
the last `lookback` bars are returned, oldest first.  `closes`/`opens` are
accepted for signature parity with the source call sites. -/
def detect_fvgs (highs lows closes opens : List ℚ) (lookback : Nat) : List Fvg :=
  (List.range highs.length).filterMap (fun i =>
    if 2 ≤ i ∧ highs.length - lookback ≤ i then
      match highs.get? i, highs.get? (i-2), lows.get? i, lows.get? (i-2) with
      | some hi, some hi2, some li, some li2 =>
        if hi2 < li then
          some { ftype := FvgType.bullish, bottom := hi2, top := li, midpoint := (hi2 + li)/2 }
        else if hi < li2 then
          some { ftype := FvgType.bearish, bottom := hi, top := li2, midpoint := (hi + li2)/2 }
        else none
      | _, _, _, _ => none
    else none)

/-- The indicator functions imported by the source from the missing `indicators`
module, taken as parameters.  Sequences that the source tests with `np.isnan`
are modelled as `List (Option ℚ)` (`none` = NaN head padding); the others as
plain `List ℚ`. -/
structure Indicators where
  ema : List ℚ → Nat → List ℚ
  rsi : List ℚ → Nat → List ℚ
  adx : List ℚ → List ℚ → List ℚ → Nat → List (Option ℚ)
  detect_trend : List ℚ → List ℚ → List ℚ → List ℚ → List ℚ → Option Side
  find_trend_extremes : List ℚ → List ℚ → Side → Nat → ℚ × ℚ
  trend_magnitude : ℚ → ℚ → ℚ
  is_parabolic : List ℚ → Bool
  detect_choch : List ℚ → List ℚ → List ℚ → Option FvgType
  detect_rsi_divergence : List ℚ → List ℚ → Option FvgType

/-- Exit reason of `should_exit`: the source uses the strings "tp"/"sl". -/
inductive ExitReason where
  | tp
  | sl
deriving DecidableEq, Repr

/-- The `{reason, price}` dict returned by `should_exit`. -/
structure ExitSignal where
  reason : ExitReason
  price : ℚ
deriving DecidableEq, Repr

/-- The order-fill trigger shared by both strategies' management loops:
long fills when `current_price ≤ order.entry_price`, short when
`current_price ≥ order.entry_price`. -/
def priceCrosses (side : Side) (price entry : ℚ) : Bool :=
  match side with
  | Side.long => decide (price ≤ entry)
  | Side.short => decide (entry ≤ price)

/-- An order fills on this tick: it is pending and price crossed its level. -/
def fillsNow (side : Side) (price : ℚ) (o : Order) : Bool :=
  decide (o.status = OrderStatus.pending) && priceCrosses side price o.entry_price

/-- Sum of `size_usd` over a list of orders. -/
def sizeSum (l : List Order) : ℚ := (l.map (fun o => o.size_usd)).sum

/-- Sum of `size_usd × entry_price` over a list of orders. -/
def notionalSum (l : List Order) : ℚ := (l.map (fun o => o.size_usd * o.entry_price)).sum

/-- Sum of `size_usd` over the filled orders of a list. -/
def filledSizeSum (l : List Order) : ℚ :=
  sizeSum (l.filter (fun o => decide (o.status = OrderStatus.filled)))

/-- Sum of `size_usd × entry_price` over the filled orders of a list. -/
def filledNotionalSum (l : List Order) : ℚ :=
  notionalSum (l.filter (fun o => decide (o.status = OrderStatus.filled)))

/-- The orders of a position that fill on this tick (pending and crossed). -/
def newlyFilled (p : Position) (price : ℚ) : List Order :=
  p.orders.filter (fillsNow p.side price)

namespace TCL

/-- `TCLStrategy.__init__` parameters. -/
structure TclConfig where
  min_trend_pct : ℚ
  ema_periods : List Nat
  risk_per_trade_pct : ℚ
  max_risk_pct : ℚ
  manage1 : ℚ
  manage2 : ℚ
  entry_mult : ℚ
  limit1_mult : ℚ
  limit2_mult : ℚ
  entry_fib : ℚ
  limit1_fib : ℚ
  limit2_fib : ℚ
  min_adx : ℚ
  adx_period : Nat

/-- The source defaults for `TCLStrategy` parameters. -/
def tclDefault : TclConfig :=
  { min_trend_pct := 2, ema_periods := [9, 21, 50, 200], risk_per_trade_pct := 2,
    max_risk_pct := 50, manage1 := 4, manage2 := 73/10, entry_mult := 1,
    limit1_mult := 3, limit2_mult := 2, entry_fib := 236/1000,
    limit1_fib := 382/1000, limit2_fib := 618/1000, min_adx := 20, adx_period := 14 }

/-- The setup dict returned by `TCLStrategy.detect_setup`. -/
structure TclSetup where
  direction : Side
  trend_high : ℚ
  trend_low : ℚ
  trend_pct : ℚ
  adx : ℚ
  ema9 : ℚ
  ema21 : ℚ
  ema50 : ℚ
  ema200 : ℚ
deriving DecidableEq, Repr

/-- `adx_values[-1] if not np.isnan(adx_values[-1]) else 0.0` from
`TCLStrategy.detect_setup`. -/
def currentAdx (ind : Indicators) (cfg : TclConfig) (c : Candles) : ℚ :=
  match (ind.adx c.high c.low c.close cfg.adx_period).getLast? with
  | some (some v) => v
  | _ => 0

/-- `np.max(highs[-20:])` from `TCLStrategy.detect_setup`. -/
def recentHigh (c : Candles) : ℚ := maxList (lastN 20 c.high)

/-- `np.min(lows[-20:])` from `TCLStrategy.detect_setup`. -/
def recentLow (c : Candles) : ℚ := minList (lastN 20 c.low)

/-- `np.max(highs[-40:-20]) if len(highs) >= 40 else recent_high`. -/
def priorHigh (c : Candles) : ℚ :=
  if 40 ≤ c.high.length then maxList ((lastN 40 c.high).take 20) else recentHigh c

/-- `np.min(lows[-40:-20]) if len(lows) >= 40 else recent_low`. -/
def priorLow (c : Candles) : ℚ :=
  if 40 ≤ c.low.length then minList ((lastN 40 c.low).take 20) else recentLow c

/-- `l[-1]` with default 0 (the source indexes the last EMA value). -/
def lastD (l : List ℚ) : ℚ := l.getLast?.getD 0

/-- `TCLStrategy.detect_setup`: EMA alignment, ADX filter, trend magnitude,
parabolic filter, continuation break. -/
def detectSetup (ind : Indicators) (cfg : TclConfig) (c : Candles) : Option TclSetup :=
  if c.close.length < 200 then none
  else
    let ema9 := ind.ema c.close 9
    let ema21 := ind.ema c.close 21
    let ema50 := ind.ema c.close 50
    let ema200 := ind.ema c.close 200
    match ind.detect_trend c.close ema9 ema21 ema50 ema200 with
    | none => none
    | some direction =>
      let current_adx := currentAdx ind cfg c
      if current_adx < cfg.min_adx then none
      else
        let ext := ind.find_trend_extremes c.high c.low direction 100
        let mag := ind.trend_magnitude ext.1 ext.2
        if mag < cfg.min_trend_pct then none
        else if ind.is_parabolic c.close = true then none
        else if direction = Side.long ∧ recentHigh c ≤ priorHigh c then none
        else if direction = Side.short ∧ priorLow c ≤ recentLow c then none
        else some { direction := direction, trend_high := ext.1, trend_low := ext.2,
                    trend_pct := mag, adx := current_adx, ema9 := lastD ema9,
                    ema21 := lastD ema21, ema50 := lastD ema50, ema200 := lastD ema200 }

/-- `get_risk_pct(price, sl)` nested helper of `TCLStrategy.calculate_entries`. -/
def get_risk_pct (price sl : ℚ) : ℚ := |price - sl| / price

/-- The stop-loss price of the TCL entry plan: `trend_low × 0.998` for long,
`trend_high × 1.002` for short. -/
def slPrice (s : TclSetup) : ℚ :=
  match s.direction with
  | Side.long => s.trend_low * (998/1000)
  | Side.short => s.trend_high * (1002/1000)

/-- The Fibonacci entry levels used by the TCL entry plan. -/
def fibPrices (s : TclSetup) : FibLevels :=
  fibonacci_retracement s.trend_high s.trend_low s.direction

/-- `risk_usd = min(balance * risk_per_trade_pct / 100, balance * max_risk_pct / 100)`. -/
def riskUsd (cfg : TclConfig) (balance : ℚ) : ℚ :=
  min (balance * cfg.risk_per_trade_pct / 100) (balance * cfg.max_risk_pct / 100)

/-- `risk_factor = entry_mult*r_entry + limit1_mult*r_limit1 + limit2_mult*r_limit2`. -/
def riskFactor (cfg : TclConfig) (s : TclSetup) : ℚ :=
  let f := fibPrices s
  let sl := slPrice s
  cfg.entry_mult * get_risk_pct f.entry sl +
    cfg.limit1_mult * get_risk_pct f.limit1 sl +
    cfg.limit2_mult * get_risk_pct f.limit2 sl

/-- `TCLStrategy.calculate_entries`: three stacked orders with risk-bounded
sizing.  `now` stands for `time.time()`. -/
def calculateEntries (cfg : TclConfig) (s : TclSetup) (balance now : ℚ) : Option Position :=
  let fib := fibPrices s
  let risk_usd := riskUsd cfg balance
  let entry_price := fib.entry
  let limit1_price := fib.limit1
  let limit2_price := fib.limit2
  let sl := slPrice s
  let diff := s.trend_high - s.trend_low
  let tp_entry := match s.direction with
    | Side.long => s.trend_high
    | Side.short => s.trend_low
  let tp_limit1 := match s.direction with
    | Side.long => limit1_price + diff / cfg.manage1
    | Side.short => limit1_price - diff / cfg.manage1
  let tp_limit2 := match s.direction with
    | Side.long => limit2_price + diff / cfg.manage2
    | Side.short => limit2_price - diff / cfg.manage2
  let risk_factor := riskFactor cfg s
  let base_size := if 0 < risk_factor then risk_usd / risk_factor else 0
  some { strategy := "TCL", side := s.direction, opened_at := now, tp := tp_entry, sl := sl,
         orders := [
           { side := s.direction, entry_price := entry_price,
             size_usd := base_size * cfg.entry_mult, tp := tp_entry, sl := sl,
             order_type := OrderType.entry },
           { side := s.direction, entry_price := limit1_price,
             size_usd := base_size * cfg.limit1_mult, tp := tp_limit1, sl := sl,
             order_type := OrderType.limit1 },
           { side := s.direction, entry_price := limit2_price,
             size_usd := base_size * cfg.limit2_mult, tp := tp_limit2, sl := sl,
             order_type := OrderType.limit2 }] }

/-- `risk_pct = abs(avg_entry - sl) / avg_entry` from `manage_position`. -/
def riskPctOf (p : Position) : ℚ := |p.avg_entry - p.sl| / p.avg_entry

/-- The side-dependent `unreal_pct` from `manage_position`. -/
def unrealPct (p : Position) (price : ℚ) : ℚ :=
  match p.side with
  | Side.long => (price - p.avg_entry) / p.avg_entry
  | Side.short => (p.avg_entry - price) / p.avg_entry

/-- `current_r = unreal_pct / risk_pct` from `manage_position`. -/
def currentR (p : Position) (price : ℚ) : ℚ := unrealPct p price / riskPctOf p

/-- The scale-in protection trigger of `TCLStrategy.manage_position`: the
conjunction of its nested guards (`total_size > 0 and avg_entry > 0 and sl > 0`,
`risk_pct > 0`, `current_r < -0.20`). -/
def gateFires (p : Position) (price : ℚ) : Bool :=
  decide (0 < p.total_size) && decide (0 < p.avg_entry) && decide (0 < p.sl) &&
    decide (0 < riskPctOf p) && decide (currentR p price < -(1/5))

/-- `o.status = 'cancelled'` applied to each pending order when the gate fires. -/
def cancelPending (o : Order) : Order :=
  if o.status = OrderStatus.pending then { o with status := OrderStatus.cancelled } else o

/-- The order-fill loop of `TCLStrategy.manage_position`: fills every pending
crossed order at its own entry price and carries the filling order's tp onto
the position.  `sd` is `pos.side`, read once up front (the loop never mutates
the side). -/
def fillLoop (sd : Side) (price : ℚ) (p : Position) : List Order → Position × List Order
  | [] => (p, [])
  | o :: rest =>
    if fillsNow sd price o then
      let po := Position.fillOrder p o o.entry_price
      let p1 := { po.1 with tp := o.tp }
      let pr := fillLoop sd price p1 rest
      (pr.1, po.2 :: pr.2)
    else
      let pr := fillLoop sd price p rest
      (pr.1, o :: pr.2)

/-- The breakeven-migration tail of `TCLStrategy.manage_position` (including the
`total_size == 0` early return that precedes it). -/
def applyBreakeven (p : Position) (c : Candles) : Position :=
  if p.total_size = 0 then p
  else if p.sl_moved_to_be = false then
    match p.side with
    | Side.long =>
      if 5 < c.high.length ∧ p.avg_entry * (10025/10000) < maxList (lastN 5 c.high) then
        { p with sl := p.avg_entry * (1001/1000), sl_moved_to_be := true }
      else p
    | Side.short =>
      if 5 < c.low.length ∧ minList (lastN 5 c.low) < p.avg_entry * (9975/10000) then
        { p with sl := p.avg_entry * (999/1000), sl_moved_to_be := true }
      else p
  else p

/-- `TCLStrategy.manage_position`: scale-in gate, order fills, breakeven
migration. -/
def managePosition (p : Position) (price : ℚ) (c : Candles) : Position :=
  if gateFires p price then
    { p with orders := p.orders.map cancelPending }
  else
    let fr := fillLoop p.side price p p.orders
    applyBreakeven { fr.1 with orders := fr.2 } c

/-- `TCLStrategy.should_exit`. -/
def shouldExit (p : Position) (price : ℚ) : Option ExitSignal :=
  if p.total_size = 0 then none
  else match p.side with
    | Side.long =>
      if p.tp ≤ price then some { reason := ExitReason.tp, price := p.tp }
      else if price ≤ p.sl then some { reason := ExitReason.sl, price := p.sl }
      else none
    | Side.short =>
      if price ≤ p.tp then some { reason := ExitReason.tp, price := p.tp }
      else if p.sl ≤ price then some { reason := ExitReason.sl, price := p.sl }
      else none

end TCL

namespace SMOG

/-- `SMOGStrategy.__init__` parameters. -/
structure SmogConfig where
  adx_threshold : ℚ
  adx_period : Nat
  rsi_period : Nat
  min_rr : ℚ
  risk_per_trade_pct : ℚ
  fib_min_level : ℚ

/-- The source defaults for `SMOGStrategy` parameters. -/
def smogDefault : SmogConfig :=
  { adx_threshold := 25, adx_period := 14, rsi_period := 14, min_rr := 4,
    risk_per_trade_pct := 3/2, fib_min_level := 1/2 }

/-- The setup dict returned by `SMOGStrategy.detect_setup`. -/
structure SmogSetup where
  direction : Side
  adx : ℚ
  divergence : FvgType
  choch : FvgType
  fvg : Fvg
  rsi : ℚ
deriving DecidableEq, Repr

/-- `adx_values[-1] if not np.isnan(adx_values[-1]) else 50.0` from
`SMOGStrategy.detect_setup`. -/
def currentAdx (ind : Indicators) (cfg : SmogConfig) (c : Candles) : ℚ :=
  match (ind.adx c.high c.low c.close cfg.adx_period).getLast? with
  | some (some v) => v
  | _ => 50

/-- `SMOGStrategy.detect_setup`: ADX range filter, RSI divergence, aligned
ChoCH, matching FVG. -/
def detectSetup (ind : Indicators) (cfg : SmogConfig) (c : Candles) : Option SmogSetup :=
  if c.close.length < 50 then none
  else
    let current_adx := currentAdx ind cfg c
    if cfg.adx_threshold ≤ current_adx then none
    else
      let rsi_values := ind.rsi c.close cfg.rsi_period
      match ind.detect_rsi_divergence c.close rsi_values with
      | none => none
      | some divergence =>
        match ind.detect_choch c.high c.low c.close with
        | none => none
        | some chochTy =>
          if chochTy ≠ divergence then none
          else
            let fvgs := detect_fvgs c.high c.low c.close c.openp 20
            let matching := fvgs.filter (fun f => decide (f.ftype = divergence))
            match matching.getLast? with
            | none => none
            | some best =>
              some { direction := if divergence = FvgType.bullish then Side.long else Side.short,
                     adx := current_adx, divergence := divergence, choch := chochTy,
                     fvg := best, rsi := (rsi_values.getLast?).getD 0 }

/-- The SMOG stop-loss price: `fvg.bottom × 0.999` for long, `fvg.top × 1.001`
for short. -/
def slPrice (s : SmogSetup) : ℚ :=
  match s.direction with
  | Side.long => s.fvg.bottom * (999/1000)
  | Side.short => s.fvg.top * (1001/1000)

/-- `risk_per_unit`: `entry − sl` for long, `sl − entry` for short. -/
def riskPerUnit (s : SmogSetup) : ℚ :=
  match s.direction with
  | Side.long => s.fvg.midpoint - slPrice s
  | Side.short => slPrice s - s.fvg.midpoint

/-- `SMOGStrategy.calculate_entries`: single order at the FVG midpoint; returns
`none` when `risk_per_unit ≤ 0`.  `now` stands for `time.time()`. -/
def calculateEntries (cfg : SmogConfig) (s : SmogSetup) (balance now : ℚ) : Option Position :=
  let entry_price := s.fvg.midpoint
  let sl := slPrice s
  let risk_per_unit := riskPerUnit s
  let tp := match s.direction with
    | Side.long => entry_price + risk_per_unit * cfg.min_rr
    | Side.short => entry_price - risk_per_unit * cfg.min_rr
  if risk_per_unit ≤ 0 then none
  else
    let risk_usd := balance * cfg.risk_per_trade_pct / 100
    let risk_pct_dist := |entry_price - sl| / entry_price
    let size_usd := if 0 < risk_pct_dist then risk_usd / risk_pct_dist else 0
    some { strategy := "SMOG", side := s.direction, opened_at := now, tp := tp, sl := sl,
           orders := [
             { side := s.direction, entry_price := entry_price, size_usd := size_usd,
               tp := tp, sl := sl, order_type := OrderType.entry }] }

/-- The order-fill loop of `SMOGStrategy.manage_position`: same crossing rule
as TCL, but without the tp carry-forward.  `sd` is `pos.side`, read once up
front (the loop never mutates the side). -/
def fillLoop (sd : Side) (price : ℚ) (p : Position) : List Order → Position × List Order
  | [] => (p, [])
  | o :: rest =>
    if fillsNow sd price o then
      let po := Position.fillOrder p o o.entry_price
      let pr := fillLoop sd price po.1 rest
      (pr.1, po.2 :: pr.2)
    else
      let pr := fillLoop sd price p rest
      (pr.1, o :: pr.2)

/-- The FVG-trailing tail of `SMOGStrategy.manage_position` (including the
`total_size == 0` early return that precedes it): replace `sl` by the most
recent matching FVG boundary only when strictly more favorable. -/
def applyTrail (p : Position) (c : Candles) : Position :=
  if p.total_size = 0 then p
  else
    match p.side with
    | Side.long =>
      match ((detect_fvgs c.high c.low c.close c.openp 10).filter
          (fun f => decide (f.ftype = FvgType.bullish))).getLast? with
      | some f => if p.sl < f.bottom then { p with sl := f.bottom } else p
      | none => p
    | Side.short =>
      match ((detect_fvgs c.high c.low c.close c.openp 10).filter
          (fun f => decide (f.ftype = FvgType.bearish))).getLast? with
      | some f => if f.top < p.sl then { p with sl := f.top } else p
      | none => p

/-- `SMOGStrategy.manage_position`: order fills, then FVG trailing. -/
def managePosition (p : Position) (price : ℚ) (c : Candles) : Position :=
  let fr := fillLoop p.side price p p.orders
  applyTrail { fr.1 with orders := fr.2 } c

/-- `SMOGStrategy.should_exit` (textually identical to the TCL version in the
source). -/
def shouldExit (p : Position) (price : ℚ) : Option ExitSignal :=
  if p.total_size = 0 then none
  else match p.side with
    | Side.long =>
      if p.tp ≤ price then some { reason := ExitReason.tp, price := p.tp }
      else if price ≤ p.sl then some { reason := ExitReason.sl, price := p.sl }
      else none
    | Side.short =>
      if price ≤ p.tp then some { reason := ExitReason.tp, price := p.tp }
      else if p.sl ≤ price then some { reason := ExitReason.sl, price := p.sl }
      else none

end SMOG

/-- Loss realized at the common stop-loss if every order of the plan fills at
its configured entry price: `Σ size_usd × |entry_price − sl| / entry_price`. -/
def slLossSum (p : Position) : ℚ :=
  (p.orders.map (fun o => o.size_usd * (|o.entry_price - p.sl| / o.entry_price))).sum

/-- `fun _ o => o.tp` folded over the newly filled orders: the tp carried by
the fill loop (the last filled order's tp, or the initial tp if none filled). -/
def lastTp (t : ℚ) : List Order → ℚ
  | [] => t
  | o :: rest => lastTp o.tp rest

/-- `if 0 < total_size then avg_entry * total_size else 0`: the filled notional
that `fill_order` reads as `old_notional`. -/
def notionalOf (p : Position) : ℚ :=
  if 0 < p.total_size then p.avg_entry * p.total_size else 0

/-! ### Concrete inputs used by the boundary-case theorems -/

/-- A long TCL position used for the breakeven boundary case: one fill of
notional 1 at 10000, stop 9900, flag not yet moved, no pending orders. -/
def c3Pos : Position :=
  { strategy := "TCL", side := Side.long, avg_entry := 10000, total_size := 1,
    tp := 10100, sl := 9900 }

/-- Candles whose last-5-bar high touches `avg_entry × 1.0025 = 10025`
exactly. -/
def c3TouchCandles : Candles :=
  { openp := [], high := [1, 1, 10025, 10025, 10025, 10025], low := [], close := [] }

/-- Candles whose last-5-bar high strictly exceeds the 0.25%% band. -/
def c3FireCandles : Candles :=
  { openp := [], high := [1, 1, 10026, 10026, 10026, 10026], low := [], close := [] }

/-- A long TCL position with two pending limit orders, both crossed at price
97: entry 100 (size 1, tp 110) and limit 98 (size 3, tp 105). -/
def c5Pos : Position :=
  { strategy := "TCL", side := Side.long,
    orders := [
      { side := Side.long, entry_price := 100, size_usd := 1, tp := 110, sl := 90,
        order_type := OrderType.entry },
      { side := Side.long, entry_price := 98, size_usd := 3, tp := 105, sl := 90,
        order_type := OrderType.limit1 }],
    tp := 110, sl := 90 }

/-- An empty candle window (no breakeven migration can fire on it). -/
def c5Candles : Candles :=
  { openp := [], high := [], low := [], close := [] }

/-- A concrete indicator implementation for the ADX-boundary witness: constant
outputs, a long EMA alignment, latest ADX exactly 20 (= the TCL default
`min_adx`). -/
def c9Ind : Indicators :=
  { ema := fun _ _ => [1], rsi := fun _ _ => [50],
    adx := fun _ _ _ _ => [some 20],
    detect_trend := fun _ _ _ _ _ => some Side.long,
    find_trend_extremes := fun _ _ _ _ => (2, 1),
    trend_magnitude := fun h l => (h - l) / l * 100,
    is_parabolic := fun _ => false,
    detect_choch := fun _ _ _ => none,
    detect_rsi_divergence := fun _ _ => none }

/-- The same indicators with latest ADX exactly 25 (= the SMOG default
`adx_threshold`). -/
def c9IndSmog : Indicators := { c9Ind with adx := fun _ _ _ _ => [some 25] }

/-- A 200-bar window whose last-20-bar high (2) breaks the prior-20-bar
high (1). -/
def c9Candles : Candles :=
  { openp := List.replicate 200 1, high := List.replicate 199 1 ++ [2],
    low := List.replicate 200 1, close := List.replicate 200 1 }

/-! ### Helper lemmas about `fill_order` and the fill loops -/

theorem lastTp_eq_getLast (t : ℚ) (l : List Order) :
    lastTp t l = (l.getLast?).elim t (fun o => o.tp) := by
  induction l generalizing t with
  | nil => rfl
  | cons o rest ih =>
    rw [lastTp, ih]
    cases rest with
    | nil => rfl
    | cons a r =>
      rw [List.getLast?_cons_cons]
      cases hr : (a :: r).getLast? with
      | none => simp at hr
      | some x => rfl

theorem Position.fillOrder_total (p : Position) (o : Order) (fp : ℚ) :
    (p.fillOrder o fp).1.total_size = p.total_size + o.size_usd := rfl

theorem Position.fillOrder_snd (p : Position) (o : Order) (fp : ℚ) :
    (p.fillOrder o fp).2 = { o with status := OrderStatus.filled } := rfl

theorem Position.fillOrder_notional (p : Position) (o : Order) (fp : ℚ)
    (hts : 0 ≤ p.total_size) (hsz : 0 ≤ o.size_usd) :
    notionalOf (p.fillOrder o fp).1 = notionalOf p + fp * o.size_usd := by
  unfold Position.fillOrder notionalOf
  dsimp only
  by_cases h2 : 0 < p.total_size + o.size_usd
  · rw [if_pos h2, if_pos h2, div_mul_cancel₀ _ (ne_of_gt h2)]
  · rw [if_neg h2]
    have h3 : p.total_size = 0 := by linarith
    have h4 : o.size_usd = 0 := by linarith
    simp [h3, h4]

theorem TCL.fillLoop_side (sd : Side) (os : List Order) (p : Position) (price : ℚ) :
    (TCL.fillLoop sd price p os).1.side = p.side := by
  induction os generalizing p with
  | nil => rfl
  | cons o rest ih =>
    rw [TCL.fillLoop]
    cases h : fillsNow sd price o with
    | true =>
      rw [if_pos rfl]
      exact ih _
    | false =>
      rw [if_neg (by simp [h])]
      exact ih _

theorem TCL.fillLoop_sl (sd : Side) (os : List Order) (p : Position) (price : ℚ) :
    (TCL.fillLoop sd price p os).1.sl = p.sl := by
  induction os generalizing p with
  | nil => rfl
  | cons o rest ih =>
    rw [TCL.fillLoop]
    cases h : fillsNow sd price o with
    | true =>
      rw [if_pos rfl]
      exact ih _
    | false =>
      rw [if_neg (by simp [h])]
      exact ih _

theorem TCL.fillLoop_smb (sd : Side) (os : List Order) (p : Position) (price : ℚ) :
    (TCL.fillLoop sd price p os).1.sl_moved_to_be = p.sl_moved_to_be := by
  induction os generalizing p with
  | nil => rfl
  | cons o rest ih =>
    rw [TCL.fillLoop]
    cases h : fillsNow sd price o with
    | true =>
      rw [if_pos rfl]
      exact ih _
    | false =>
      rw [if_neg (by simp [h])]
      exact ih _

theorem TCL.fillLoop_orders (sd : Side) (os : List Order) (p : Position) (price : ℚ) :
    List.Forall₂
      (fun o o2 => o2 = if fillsNow sd price o then { o with status := OrderStatus.filled } else o)
      os (TCL.fillLoop sd price p os).2 := by
  induction os generalizing p with
  | nil => exact List.Forall₂.nil
  | cons o rest ih =>
    rw [TCL.fillLoop]
    cases h : fillsNow sd price o with
    | true =>
      rw [if_pos rfl]
      exact List.Forall₂.cons (by rw [if_pos h]; rfl) (ih _)
    | false =>
      rw [if_neg (by simp [h])]
      exact List.Forall₂.cons (by rw [if_neg (by simp [h])]) (ih _)

theorem TCL.fillLoop_total (sd : Side) (os : List Order) (p : Position) (price : ℚ) :
    (TCL.fillLoop sd price p os).1.total_size
      = p.total_size + sizeSum (os.filter (fillsNow sd price)) := by
  induction os generalizing p with
  | nil => simp [TCL.fillLoop, sizeSum]
  | cons o rest ih =>
    rw [TCL.fillLoop]
    cases h : fillsNow sd price o with
    | true =>
      rw [if_pos rfl]
      dsimp only
      rw [ih]
      simp only [List.filter_cons, h, if_pos, sizeSum, List.map_cons, List.sum_cons]
      show p.total_size + o.size_usd + _ = _
      ring
    | false =>
      rw [if_neg (by simp [h])]
      dsimp only
      rw [ih]
      simp [List.filter_cons, h]

theorem TCL.fillLoop_total_nonneg (sd : Side) (os : List Order) (p : Position) (price : ℚ)
    (hts : 0 ≤ p.total_size) (hsz : ∀ o ∈ os, 0 ≤ o.size_usd) :
    0 ≤ (TCL.fillLoop sd price p os).1.total_size := by
  rw [TCL.fillLoop_total]
  have : 0 ≤ sizeSum (os.filter (fillsNow sd price)) := by
    unfold sizeSum
    apply List.sum_nonneg
    intro x hx
    obtain ⟨o, ho, rfl⟩ := List.mem_map.mp hx
    exact hsz o (List.mem_of_mem_filter ho)
  linarith

theorem TCL.fillLoop_tp (sd : Side) (os : List Order) (p : Position) (price : ℚ) :
    (TCL.fillLoop sd price p os).1.tp = lastTp p.tp (os.filter (fillsNow sd price)) := by
  induction os generalizing p with
  | nil => rfl
  | cons o rest ih =>
    rw [TCL.fillLoop]
    cases h : fillsNow sd price o with
    | true =>
      rw [if_pos rfl]
      dsimp only
      rw [ih]
      simp only [List.filter_cons, h, if_pos, lastTp]
    | false =>
      rw [if_neg (by simp [h])]
      dsimp only
      rw [ih]
      simp [List.filter_cons, h]

theorem TCL.fillLoop_notional (sd : Side) (os : List Order) (p : Position) (price : ℚ)
    (hts : 0 ≤ p.total_size) (hsz : ∀ o ∈ os, 0 ≤ o.size_usd) :
    notionalOf (TCL.fillLoop sd price p os).1
      = notionalOf p + notionalSum (os.filter (fillsNow sd price)) := by
  induction os generalizing p with
  | nil => simp [TCL.fillLoop, notionalSum]
  | cons o rest ih =>
    rw [TCL.fillLoop]
    cases h : fillsNow sd price o with
    | true =>
      rw [if_pos rfl]
      dsimp only
      have hsz0 : 0 ≤ o.size_usd := hsz o (by simp)
      have hts1 : (0:ℚ) ≤ p.total_size + o.size_usd := by linarith
      have hnext : notionalOf { (p.fillOrder o o.entry_price).1 with tp := o.tp }
          = notionalOf p + o.entry_price * o.size_usd :=
        Position.fillOrder_notional p o o.entry_price hts hsz0
      rw [ih _ hts1 (fun a ha => hsz a (by simp [ha])), hnext]
      simp only [List.filter_cons, h, if_pos, notionalSum, List.map_cons, List.sum_cons]
      ring
    | false =>
      rw [if_neg (by simp [h])]
      dsimp only
      rw [ih _ hts (fun a ha => hsz a (by simp [ha]))]
      simp [List.filter_cons, h]

theorem TCL.fillLoop_id (sd : Side) (os : List Order) (p : Position) (price : ℚ)
    (hnp : ∀ o ∈ os, o.status ≠ OrderStatus.pending) :
    TCL.fillLoop sd price p os = (p, os) := by
  induction os generalizing p with
  | nil => rfl
  | cons o rest ih =>
    have h : fillsNow sd price o = false := by
      simp [fillsNow, hnp o (by simp)]
    rw [TCL.fillLoop]
    rw [if_neg (by simp [h])]
    rw [ih _ (fun a ha => hnp a (by simp [ha]))]

theorem TCL.applyBreakeven_orders (p : Position) (c : Candles) :
    (TCL.applyBreakeven p c).orders = p.orders := by
  unfold TCL.applyBreakeven
  repeat' split
  all_goals rfl

theorem TCL.applyBreakeven_total (p : Position) (c : Candles) :
    (TCL.applyBreakeven p c).total_size = p.total_size := by
  unfold TCL.applyBreakeven
  repeat' split
  all_goals rfl

theorem TCL.applyBreakeven_avg (p : Position) (c : Candles) :
    (TCL.applyBreakeven p c).avg_entry = p.avg_entry := by
  unfold TCL.applyBreakeven
  repeat' split
  all_goals rfl

theorem TCL.applyBreakeven_tp (p : Position) (c : Candles) :
    (TCL.applyBreakeven p c).tp = p.tp := by
  unfold TCL.applyBreakeven
  repeat' split
  all_goals rfl

theorem SMOG.smogFillLoop_side (sd : Side) (os : List Order) (p : Position) (price : ℚ) :
    (SMOG.fillLoop sd price p os).1.side = p.side := by
  induction os generalizing p with
  | nil => rfl
  | cons o rest ih =>
    rw [SMOG.fillLoop]
    cases h : fillsNow sd price o with
    | true =>
      rw [if_pos rfl]
      exact ih _
    | false =>
      rw [if_neg (by simp [h])]
      exact ih _

theorem SMOG.smogFillLoop_sl (sd : Side) (os : List Order) (p : Position) (price : ℚ) :
    (SMOG.fillLoop sd price p os).1.sl = p.sl := by
  induction os generalizing p with
  | nil => rfl
  | cons o rest ih =>
    rw [SMOG.fillLoop]
    cases h : fillsNow sd price o with
    | true =>
      rw [if_pos rfl]
      exact ih _
    | false =>
      rw [if_neg (by simp [h])]
      exact ih _

theorem SMOG.smogFillLoop_orders (sd : Side) (os : List Order) (p : Position) (price : ℚ) :
    List.Forall₂
      (fun o o2 => o2 = if fillsNow sd price o then { o with status := OrderStatus.filled } else o)
      os (SMOG.fillLoop sd price p os).2 := by
  induction os generalizing p with
  | nil => exact List.Forall₂.nil
  | cons o rest ih =>
    rw [SMOG.fillLoop]
    cases h : fillsNow sd price o with
    | true =>
      rw [if_pos rfl]
      exact List.Forall₂.cons (by rw [if_pos h]; rfl) (ih _)
    | false =>
      rw [if_neg (by simp [h])]
      exact List.Forall₂.cons (by rw [if_neg (by simp [h])]) (ih _)

theorem SMOG.applyTrail_orders (p : Position) (c : Candles) :
    (SMOG.applyTrail p c).orders = p.orders := by
  unfold SMOG.applyTrail
  repeat' split
  all_goals rfl

theorem SMOG.applyTrail_sl_mono (p : Position) (c : Candles) :
    (p.side = Side.long → p.sl ≤ (SMOG.applyTrail p c).sl) ∧
      (p.side = Side.short → (SMOG.applyTrail p c).sl ≤ p.sl) := by
  unfold SMOG.applyTrail
  by_cases h0 : p.total_size = 0
  · simp [h0]
  constructor <;> intro hs <;> simp only [h0, if_false, hs]
  · cases hL : ((detect_fvgs c.high c.low c.close c.openp 10).filter
        (fun f => decide (f.ftype = FvgType.bullish))).getLast? with
    | none => simp [hL]
    | some f =>
      simp only [hL]
      split
      · next hlt => exact le_of_lt hlt
      · exact le_refl _
  · cases hL : ((detect_fvgs c.high c.low c.close c.openp 10).filter
        (fun f => decide (f.ftype = FvgType.bearish))).getLast? with
    | none => simp [hL]
    | some f =>
      simp only [hL]
      split
      · next hlt => exact le_of_lt hlt
      · exact le_refl _


/-! ### Claim theorems -/

/-- Claim C10: a position with no filled orders never signals an exit — for
every position with `total_size = 0` and every current price (including prices
at or beyond the stored tp/sl), both `TCLStrategy.should_exit` and
`SMOGStrategy.should_exit` return no exit. -/
theorem no_exit_without_fills_c10 (p : Position) (price : ℚ) (h : p.total_size = 0) :
    TCL.shouldExit p price = none ∧ SMOG.shouldExit p price = none := by
  unfold TCL.shouldExit SMOG.shouldExit
  rw [if_pos h]
  exact ⟨rfl, rfl⟩

/-- Witness for C10 at a concrete unfilled long position whose price is already
beyond both barriers. -/
theorem no_exit_without_fills_c10_witness :
    TCL.shouldExit { strategy := "TCL", side := Side.long, tp := 100, sl := 90 } 150 = none ∧
      SMOG.shouldExit { strategy := "TCL", side := Side.long, tp := 100, sl := 90 } 150 = none :=
  no_exit_without_fills_c10 _ 150 rfl

/-- Claim C8: for every position with `total_size > 0`, `should_exit` of a long
position returns reason tp with the stored tp price when `current_price ≥ tp`,
else reason sl with the stored sl price when `current_price ≤ sl`, else no
exit; mirrored comparisons for shorts; and the TCL and SMOG exit checks agree
on every input. -/
theorem exit_check_c8 (p : Position) (price : ℚ) :
    (0 < p.total_size →
      (p.side = Side.long →
        (p.tp ≤ price → TCL.shouldExit p price = some { reason := ExitReason.tp, price := p.tp }) ∧
        (price < p.tp → price ≤ p.sl →
          TCL.shouldExit p price = some { reason := ExitReason.sl, price := p.sl }) ∧
        (price < p.tp → p.sl < price → TCL.shouldExit p price = none)) ∧
      (p.side = Side.short →
        (price ≤ p.tp → TCL.shouldExit p price = some { reason := ExitReason.tp, price := p.tp }) ∧
        (p.tp < price → p.sl ≤ price →
          TCL.shouldExit p price = some { reason := ExitReason.sl, price := p.sl }) ∧
        (p.tp < price → price < p.sl → TCL.shouldExit p price = none))) ∧
      TCL.shouldExit p price = SMOG.shouldExit p price := by
  constructor
  · intro hts
    have h0 : ¬ p.total_size = 0 := by
      intro h
      rw [h] at hts
      exact lt_irrefl 0 hts
    constructor <;> intro hs <;> unfold TCL.shouldExit <;> rw [if_neg h0] <;> rw [hs]
    · refine ⟨fun h1 => by rw [if_pos h1], fun h1 h2 => ?_, fun h1 h2 => ?_⟩
      · rw [if_neg (not_le.mpr h1), if_pos h2]
      · rw [if_neg (not_le.mpr h1), if_neg (not_le.mpr h2)]
    · refine ⟨fun h1 => by rw [if_pos h1], fun h1 h2 => ?_, fun h1 h2 => ?_⟩
      · rw [if_neg (not_le.mpr h1), if_pos h2]
      · rw [if_neg (not_le.mpr h1), if_neg (not_le.mpr h2)]
  · rfl

/-- Witness for C8: a concrete filled long position exits at its stored tp when
price is at the barrier. -/
theorem exit_check_c8_witness :
    TCL.shouldExit
        { strategy := "TCL", side := Side.long, total_size := 1, tp := 100, sl := 90 } 100
      = some { reason := ExitReason.tp, price :=
          ({ strategy := "TCL", side := Side.long, total_size := 1, tp := 100, sl := 90 } : Position).tp } :=
  (((exit_check_c8 _ 100).1 (by decide)).1 rfl).1 (by decide)

/-- Claim C6: SMOG stop-loss monotonicity — over any single call to
`SMOGStrategy.manage_position`, the stop-loss never moves against the position
(non-decreasing for longs, non-increasing for shorts). -/
theorem smog_sl_monotone_c6 (p : Position) (price : ℚ) (c : Candles) :
    (p.side = Side.long → p.sl ≤ (SMOG.managePosition p price c).sl) ∧
      (p.side = Side.short → (SMOG.managePosition p price c).sl ≤ p.sl) := by
  have h := SMOG.applyTrail_sl_mono
    { (SMOG.fillLoop p.side price p p.orders).1 with
        orders := (SMOG.fillLoop p.side price p p.orders).2 } c
  have hside : ({ (SMOG.fillLoop p.side price p p.orders).1 with
      orders := (SMOG.fillLoop p.side price p p.orders).2 } : Position).side = p.side :=
    SMOG.smogFillLoop_side p.side p.orders p price
  have hsl : ({ (SMOG.fillLoop p.side price p p.orders).1 with
      orders := (SMOG.fillLoop p.side price p p.orders).2 } : Position).sl = p.sl :=
    SMOG.smogFillLoop_sl p.side p.orders p price
  rw [hside, hsl] at h
  exact h

/-- Witness for C6 at a concrete filled long SMOG position on an empty candle
window. -/
theorem smog_sl_monotone_c6_witness :
    ({ strategy := "SMOG", side := Side.long, avg_entry := 100, total_size := 1,
        tp := 110, sl := 90 } : Position).sl
      ≤ (SMOG.managePosition
          { strategy := "SMOG", side := Side.long, avg_entry := 100, total_size := 1,
            tp := 110, sl := 90 } 100
          { openp := [], high := [], low := [], close := [] }).sl :=
  (smog_sl_monotone_c6 _ 100 _).1 rfl

/-- Claim C7: `fill_order` preserves the position accounting invariant — for a
position whose `total_size` equals the filled-order size sum and whose
`avg_entry × total_size` equals the filled-order notional sum, filling a
pending order (of nonnegative size, on a nonnegative-size position) marks it
filled, adds its `size_usd` to `total_size`, and recomputes `avg_entry` so that
both equations hold again with the new order counted as filled at
`fill_price`. -/
theorem fill_order_invariant_c7 (p : Position) (o : Order) (l1 l2 : List Order) (fp : ℚ)
    (horders : p.orders = l1 ++ o :: l2) (hpend : o.status = OrderStatus.pending)
    (hts : 0 ≤ p.total_size) (hsz : 0 ≤ o.size_usd)
    (hinv1 : p.total_size = filledSizeSum p.orders)
    (hinv2 : p.avg_entry * p.total_size = filledNotionalSum p.orders) :
    (p.fillOrder o fp).2.status = OrderStatus.filled ∧
      (p.fillOrder o fp).1.total_size = p.total_size + o.size_usd ∧
      (p.fillOrder o fp).1.total_size = filledSizeSum (l1 ++ (p.fillOrder o fp).2 :: l2) ∧
      (p.fillOrder o fp).1.avg_entry * (p.fillOrder o fp).1.total_size
        = filledNotionalSum p.orders + o.size_usd * fp := by
  have hnp : notionalOf p = filledNotionalSum p.orders := by
    unfold notionalOf
    by_cases hpos : 0 < p.total_size
    · rw [if_pos hpos]
      exact hinv2
    · rw [if_neg hpos]
      have h0 : p.total_size = 0 := le_antisymm (not_lt.mp hpos) hts
      rw [h0, mul_zero] at hinv2
      exact hinv2
  refine ⟨rfl, Position.fillOrder_total p o fp, ?_, ?_⟩
  · rw [Position.fillOrder_total, Position.fillOrder_snd, hinv1, horders]
    simp [filledSizeSum, sizeSum, List.filter_append, List.filter_cons, hpend]
    ring
  · have hnr : notionalOf (p.fillOrder o fp).1 = notionalOf p + fp * o.size_usd :=
      Position.fillOrder_notional p o fp hts hsz
    have hts2 : 0 ≤ (p.fillOrder o fp).1.total_size := by
      rw [Position.fillOrder_total]
      linarith
    have hkey : (p.fillOrder o fp).1.avg_entry * (p.fillOrder o fp).1.total_size
        = notionalOf (p.fillOrder o fp).1 := by
      unfold notionalOf
      by_cases hpos : 0 < (p.fillOrder o fp).1.total_size
      · rw [if_pos hpos]
      · rw [if_neg hpos]
        have h0 : (p.fillOrder o fp).1.total_size = 0 := le_antisymm (not_lt.mp hpos) hts2
        rw [h0, mul_zero]
    rw [hkey, hnr, hnp]
    ring

/-- Witness for C7: filling the single pending order of a fresh position. -/
theorem fill_order_invariant_c7_witness :
    (Position.fillOrder
        { strategy := "TCL", side := Side.long,
          orders := [{ side := Side.long, entry_price := 100, size_usd := 5, tp := 110,
                       sl := 90, order_type := OrderType.entry }] }
        { side := Side.long, entry_price := 100, size_usd := 5, tp := 110, sl := 90,
          order_type := OrderType.entry } 100).2.status = OrderStatus.filled ∧
      (Position.fillOrder
        { strategy := "TCL", side := Side.long,
          orders := [{ side := Side.long, entry_price := 100, size_usd := 5, tp := 110,
                       sl := 90, order_type := OrderType.entry }] }
        { side := Side.long, entry_price := 100, size_usd := 5, tp := 110, sl := 90,
          order_type := OrderType.entry } 100).1.total_size
        = ({ strategy := "TCL", side := Side.long,
             orders := [{ side := Side.long, entry_price := 100, size_usd := 5, tp := 110,
                          sl := 90, order_type := OrderType.entry }] } : Position).total_size
          + ({ side := Side.long, entry_price := 100, size_usd := 5, tp := 110, sl := 90,
               order_type := OrderType.entry } : Order).size_usd ∧
      (Position.fillOrder
        { strategy := "TCL", side := Side.long,
          orders := [{ side := Side.long, entry_price := 100, size_usd := 5, tp := 110,
                       sl := 90, order_type := OrderType.entry }] }
        { side := Side.long, entry_price := 100, size_usd := 5, tp := 110, sl := 90,
          order_type := OrderType.entry } 100).1.total_size
        = filledSizeSum ([] ++ (Position.fillOrder
            { strategy := "TCL", side := Side.long,
              orders := [{ side := Side.long, entry_price := 100, size_usd := 5, tp := 110,
                           sl := 90, order_type := OrderType.entry }] }
            { side := Side.long, entry_price := 100, size_usd := 5, tp := 110, sl := 90,
              order_type := OrderType.entry } 100).2 :: []) ∧
      (Position.fillOrder
        { strategy := "TCL", side := Side.long,
          orders := [{ side := Side.long, entry_price := 100, size_usd := 5, tp := 110,
                       sl := 90, order_type := OrderType.entry }] }
        { side := Side.long, entry_price := 100, size_usd := 5, tp := 110, sl := 90,
          order_type := OrderType.entry } 100).1.avg_entry
        * (Position.fillOrder
            { strategy := "TCL", side := Side.long,
              orders := [{ side := Side.long, entry_price := 100, size_usd := 5, tp := 110,
                           sl := 90, order_type := OrderType.entry }] }
            { side := Side.long, entry_price := 100, size_usd := 5, tp := 110, sl := 90,
              order_type := OrderType.entry } 100).1.total_size
        = filledNotionalSum
            ({ strategy := "TCL", side := Side.long,
               orders := [{ side := Side.long, entry_price := 100, size_usd := 5, tp := 110,
                            sl := 90, order_type := OrderType.entry }] } : Position).orders
          + ({ side := Side.long, entry_price := 100, size_usd := 5, tp := 110, sl := 90,
               order_type := OrderType.entry } : Order).size_usd * 100 :=
  fill_order_invariant_c7 _ _ [] [] 100 rfl rfl (by decide) (by decide) (by decide)
    (by simp [filledNotionalSum, notionalSum])


/-- Claim C1: TCL sizing bounds total loss by the risk cap — for every setup
with `trend_high > trend_low` (and positive prices) and every positive balance,
with `R = min(balance × risk_per_trade_pct/100, balance × max_risk_pct/100)`
and risk factor `F > 0`, `calculate_entries` produces a position such that if
all three orders fill at their configured entry prices and the position exits
at its stop-loss, the summed loss `Σ size_k × |entry_k − sl|/entry_k` equals
`R` exactly. -/
theorem tcl_sizing_risk_cap_c1 (cfg : TCL.TclConfig) (s : TCL.TclSetup) (balance now : ℚ)
    (hlow : 0 < s.trend_low) (hhl : s.trend_low < s.trend_high) (hb : 0 < balance)
    (hF : 0 < TCL.riskFactor cfg s) :
    ∃ p, TCL.calculateEntries cfg s balance now = some p ∧
      slLossSum p = TCL.riskUsd cfg balance := by
  refine ⟨_, rfl, ?_⟩
  unfold slLossSum
  dsimp only
  simp only [List.map_cons, List.map_nil, List.sum_cons, List.sum_nil]
  rw [if_pos hF]
  have hFne : TCL.riskFactor cfg s ≠ 0 := ne_of_gt hF
  conv_rhs => rw [← div_mul_cancel₀ (TCL.riskUsd cfg balance) hFne]
  unfold TCL.riskFactor TCL.get_risk_pct
  ring

/-- Witness for C1 at the default TCL configuration, a 100→110 long trend and
a 10,000 balance. -/
theorem tcl_sizing_risk_cap_c1_witness :
    ∃ p, TCL.calculateEntries TCL.tclDefault
        { direction := Side.long, trend_high := 110, trend_low := 100, trend_pct := 0,
          adx := 0, ema9 := 0, ema21 := 0, ema50 := 0, ema200 := 0 } 10000 0 = some p ∧
      slLossSum p = TCL.riskUsd TCL.tclDefault 10000 :=
  tcl_sizing_risk_cap_c1 TCL.tclDefault _ 10000 0 (by norm_num) (by norm_num) (by norm_num)
    (by norm_num [TCL.riskFactor, TCL.get_risk_pct, TCL.fibPrices, TCL.slPrice,
          fibonacci_retracement, TCL.tclDefault, abs])

/-- Claim C2: the TCL scale-in gate — for every TCL position with
`total_size > 0`, `avg_entry > 0` and `sl > 0`, exactly when
`current_r = unrealized_pct / risk_pct` is strictly below −0.20 does
`manage_position` cancel every pending order and return immediately (no order
filled, no breakeven migration); when `current_r ≥ −0.20` the gate cancels
nothing. -/
theorem tcl_scale_in_gate_c2 (p : Position) (price : ℚ) (c : Candles)
    (h1 : 0 < p.total_size) (h2 : 0 < p.avg_entry) (h3 : 0 < p.sl) :
    (TCL.currentR p price < -(1/5) →
      TCL.managePosition p price c = { p with orders := p.orders.map TCL.cancelPending }) ∧
      (-(1/5) ≤ TCL.currentR p price →
        List.Forall₂ (fun o o2 => o2.status = OrderStatus.cancelled → o.status = OrderStatus.cancelled)
          p.orders (TCL.managePosition p price c).orders) := by
  constructor
  · intro hr
    have hrp : 0 < TCL.riskPctOf p := by
      rcases lt_or_eq_of_le (show 0 ≤ TCL.riskPctOf p from
        div_nonneg (abs_nonneg _) (le_of_lt h2)) with h | h
      · exact h
      · exfalso
        unfold TCL.currentR at hr
        rw [← h, div_zero] at hr
        norm_num at hr
    have hg : TCL.gateFires p price = true := by
      unfold TCL.gateFires
      rw [decide_eq_true h1, decide_eq_true h2, decide_eq_true h3,
        decide_eq_true hrp, decide_eq_true hr]
      rfl
    unfold TCL.managePosition
    rw [if_pos hg]
  · intro hr
    have hg : TCL.gateFires p price = false := by
      unfold TCL.gateFires
      rw [decide_eq_false (not_lt.mpr hr)]
      simp
    unfold TCL.managePosition
    rw [if_neg (by simp [hg])]
    dsimp only
    have horders : (TCL.applyBreakeven
        { (TCL.fillLoop p.side price p p.orders).1 with
            orders := (TCL.fillLoop p.side price p p.orders).2 } c).orders
        = (TCL.fillLoop p.side price p p.orders).2 :=
      TCL.applyBreakeven_orders _ c
    rw [horders]
    have hfa := TCL.fillLoop_orders p.side p.orders p price
    refine List.Forall₂.imp ?_ hfa
    intro o o2 ho
    rw [ho]
    by_cases hb : fillsNow p.side price o
    · rw [if_pos hb]
      intro hcontra
      exact absurd hcontra (by simp)
    · rw [if_neg hb]
      exact id

/-- Witness for C2: a gated tick (long at avg 100, sl 90, price 97 gives
current_r = −0.3 < −0.2) cancels the pending order set. -/
theorem tcl_scale_in_gate_c2_witness :
    TCL.managePosition
        { strategy := "TCL", side := Side.long,
          orders := [{ side := Side.long, entry_price := 95, size_usd := 1, tp := 110,
                       sl := 90, order_type := OrderType.limit1 }],
          avg_entry := 100, total_size := 1, tp := 110, sl := 90 } 97
        { openp := [], high := [], low := [], close := [] }
      = { ({ strategy := "TCL", side := Side.long,
             orders := [{ side := Side.long, entry_price := 95, size_usd := 1, tp := 110,
                          sl := 90, order_type := OrderType.limit1 }],
             avg_entry := 100, total_size := 1, tp := 110, sl := 90 } : Position) with
          orders := List.map TCL.cancelPending
            [{ side := Side.long, entry_price := 95, size_usd := 1, tp := 110,
               sl := 90, order_type := OrderType.limit1 }] } :=
  (tcl_scale_in_gate_c2 _ 97 _ (by norm_num) (by norm_num) (by norm_num)).1
    (by norm_num [TCL.currentR, TCL.unrealPct, TCL.riskPctOf])


/-- Counterexample for C4 as stated: at a degenerate setup the TCL risk factor
is non-positive, yet `TCLStrategy.calculate_entries` still returns a position
(it never returns the no-result value; only the sizes collapse to 0). -/
theorem sizing_failure_c4_counterexample :
    TCL.riskFactor TCL.tclDefault
        { direction := Side.long, trend_high := -1, trend_low := -1, trend_pct := 0,
          adx := 0, ema9 := 0, ema21 := 0, ema50 := 0, ema200 := 0 } ≤ 0 ∧
      (TCL.calculateEntries TCL.tclDefault
        { direction := Side.long, trend_high := -1, trend_low := -1, trend_pct := 0,
          adx := 0, ema9 := 0, ema21 := 0, ema50 := 0, ema200 := 0 } 1000 0).isSome = true :=
  ⟨by norm_num [TCL.riskFactor, TCL.get_risk_pct, TCL.fibPrices, TCL.slPrice,
      fibonacci_retracement, TCL.tclDefault, abs], rfl⟩

/-- Claim C4, amended: on a sizing failure SMOG opens no position
(`calculate_entries` returns the no-result value when the SL distance
`risk_per_unit ≤ 0`), while TCL with risk factor `F ≤ 0` still returns a
position — but one whose orders all have notional 0. -/
theorem sizing_failure_c4_amended :
    (∀ (cfg : SMOG.SmogConfig) (s : SMOG.SmogSetup) (balance now : ℚ),
      SMOG.riskPerUnit s ≤ 0 → SMOG.calculateEntries cfg s balance now = none) ∧
      (∀ (cfg : TCL.TclConfig) (s : TCL.TclSetup) (balance now : ℚ),
        TCL.riskFactor cfg s ≤ 0 →
          ∃ p, TCL.calculateEntries cfg s balance now = some p ∧
            ∀ o ∈ p.orders, o.size_usd = 0) := by
  constructor
  · intro cfg s balance now h
    unfold SMOG.calculateEntries
    rw [if_pos h]
  · intro cfg s balance now h
    refine ⟨_, rfl, ?_⟩
    intro o ho
    have h0 : (if 0 < TCL.riskFactor cfg s then TCL.riskUsd cfg balance / TCL.riskFactor cfg s else 0)
        = (0:ℚ) := if_neg (not_lt.mpr h)
    dsimp only at ho
    simp only [List.mem_cons, List.not_mem_nil, or_false] at ho
    rcases ho with rfl | rfl | rfl <;> dsimp only <;> rw [h0, zero_mul]

/-- Witness for the amended C4: a SMOG setup whose FVG midpoint sits below the
long stop (risk_per_unit < 0) yields no position, and the degenerate TCL setup
yields an all-zero-size position. -/
theorem sizing_failure_c4_witness :
    SMOG.calculateEntries SMOG.smogDefault
        { direction := Side.long, adx := 0, divergence := FvgType.bullish,
          choch := FvgType.bullish,
          fvg := { ftype := FvgType.bullish, top := 210, bottom := 200, midpoint := 100 },
          rsi := 0 } 1000 0 = none ∧
      ∃ p, TCL.calculateEntries TCL.tclDefault
          { direction := Side.long, trend_high := -1, trend_low := -1, trend_pct := 0,
            adx := 0, ema9 := 0, ema21 := 0, ema50 := 0, ema200 := 0 } 1000 0 = some p ∧
        ∀ o ∈ p.orders, o.size_usd = 0 :=
  ⟨sizing_failure_c4_amended.1 SMOG.smogDefault _ 1000 0
      (by norm_num [SMOG.riskPerUnit, SMOG.slPrice]),
    sizing_failure_c4_amended.2 TCL.tclDefault _ 1000 0
      (by norm_num [TCL.riskFactor, TCL.get_risk_pct, TCL.fibPrices, TCL.slPrice,
        fibonacci_retracement, TCL.tclDefault, abs])⟩

/-- Counterexample for C3 as stated: a long TCL position (total_size > 0, not
yet moved to breakeven) whose last-5-bar high touches `avg_entry × 1.0025`
exactly does NOT trigger the breakeven migration — the source compares with
strict `>`, so the boundary case of equality leaves `sl` and the flag
unchanged. -/
theorem tcl_breakeven_c3_counterexample :
    maxList (lastN 5 c3TouchCandles.high) = c3Pos.avg_entry * (10025/10000) ∧
      5 < c3TouchCandles.high.length ∧
      c3Pos.side = Side.long ∧ 0 < c3Pos.total_size ∧ c3Pos.sl_moved_to_be = false ∧
      (TCL.managePosition c3Pos 10000 c3TouchCandles).sl_moved_to_be = false ∧
      (TCL.managePosition c3Pos 10000 c3TouchCandles).sl = c3Pos.sl := by
  refine ⟨by norm_num [maxList, lastN, c3TouchCandles, c3Pos], by norm_num [c3TouchCandles],
    rfl, by norm_num [c3Pos], rfl, ?_, ?_⟩ <;>
    · norm_num [TCL.managePosition, TCL.gateFires, TCL.riskPctOf, TCL.currentR,
        TCL.unrealPct, TCL.fillLoop, TCL.applyBreakeven, maxList, lastN, abs,
        c3Pos, c3TouchCandles]

/-- Claim C3, amended: for a TCL position with `total_size > 0`, no pending
orders, and an ungated tick, the breakeven migration fires exactly when the
candle window has more than 5 bars and some of the last 5 bars' high is
STRICTLY above `avg_entry × 1.0025` for longs (strictly below
`avg_entry × 0.9975` for shorts), setting `sl = avg_entry × 1.001`
(`× 0.999` short) and the one-way flag; once `sl_moved_to_be` is set the
migration is never re-applied. -/
theorem tcl_breakeven_c3_amended (p : Position) (price : ℚ) (c : Candles)
    (h0 : 0 < p.total_size) (hg : TCL.gateFires p price = false)
    (hnp : ∀ o ∈ p.orders, o.status ≠ OrderStatus.pending) :
    (p.side = Side.long → p.sl_moved_to_be = false →
      (((TCL.managePosition p price c).sl_moved_to_be = true ∧
          (TCL.managePosition p price c).sl = p.avg_entry * (1001/1000)) ↔
        (5 < c.high.length ∧ p.avg_entry * (10025/10000) < maxList (lastN 5 c.high)))) ∧
      (p.side = Side.short → p.sl_moved_to_be = false →
        (((TCL.managePosition p price c).sl_moved_to_be = true ∧
            (TCL.managePosition p price c).sl = p.avg_entry * (999/1000)) ↔
          (5 < c.low.length ∧ minList (lastN 5 c.low) < p.avg_entry * (9975/10000)))) ∧
      (p.sl_moved_to_be = true →
        (TCL.managePosition p price c).sl = p.sl ∧
          (TCL.managePosition p price c).sl_moved_to_be = true) := by
  have hne : ¬ p.total_size = 0 := by
    intro h
    rw [h] at h0
    exact lt_irrefl 0 h0
  have hm : TCL.managePosition p price c = TCL.applyBreakeven p c := by
    unfold TCL.managePosition
    rw [if_neg (by simp [hg])]
    dsimp only
    rw [TCL.fillLoop_id p.side p.orders p price hnp]
  rw [hm]
  refine ⟨fun hs hflag => ?_, fun hs hflag => ?_, fun hflag => ?_⟩
  · unfold TCL.applyBreakeven
    rw [if_neg hne, if_pos hflag]
    simp only [hs]
    by_cases hcond : 5 < c.high.length ∧ p.avg_entry * (10025/10000) < maxList (lastN 5 c.high)
    · rw [if_pos hcond]
      exact iff_of_true ⟨rfl, rfl⟩ hcond
    · rw [if_neg hcond]
      exact iff_of_false (fun hl => by rw [hflag] at hl; exact Bool.false_ne_true hl.1) hcond
  · unfold TCL.applyBreakeven
    rw [if_neg hne, if_pos hflag]
    simp only [hs]
    by_cases hcond : 5 < c.low.length ∧ minList (lastN 5 c.low) < p.avg_entry * (9975/10000)
    · rw [if_pos hcond]
      exact iff_of_true ⟨rfl, rfl⟩ hcond
    · rw [if_neg hcond]
      exact iff_of_false (fun hl => by rw [hflag] at hl; exact Bool.false_ne_true hl.1) hcond
  · unfold TCL.applyBreakeven
    rw [if_neg hne, if_neg (by simp [hflag])]
    exact ⟨rfl, hflag⟩

/-- Witness for the amended C3: with a last-5-bar high strictly above the
0.25%% band, the migration fires and sets `sl = avg_entry × 1.001`. -/
theorem tcl_breakeven_c3_witness :
    (TCL.managePosition c3Pos 10000 c3FireCandles).sl_moved_to_be = true ∧
      (TCL.managePosition c3Pos 10000 c3FireCandles).sl
        = c3Pos.avg_entry * (1001/1000) :=
  ((tcl_breakeven_c3_amended c3Pos 10000 c3FireCandles (by norm_num [c3Pos])
        (by norm_num [TCL.gateFires, TCL.riskPctOf, TCL.currentR, TCL.unrealPct, abs, c3Pos])
        (by simp [c3Pos])).1 rfl rfl).mpr
    (by norm_num [maxList, lastN, c3FireCandles, c3Pos])


/-- Claim C5: order fill rule with TP carry-forward — on a single ungated
`manage_position` call, every pending order whose level is crossed
(long: `current_price ≤ entry_price`; short: `current_price ≥ entry_price`)
is filled, several possibly on the same tick, each at its own entry price
(the accounting adds exactly the filled orders' sizes and entry-price
notionals), and for TCL the position tp ends as the tp of the LAST newly
filled order in list order (unchanged if none filled); the SMOG loop fills by
the same crossing rule. -/
theorem fill_rule_tp_carry_c5 (p : Position) (price : ℚ) (c : Candles) :
    (TCL.gateFires p price = false → 0 ≤ p.total_size → (∀ o ∈ p.orders, 0 ≤ o.size_usd) →
      (List.Forall₂
          (fun o o2 => o2 = if fillsNow p.side price o then { o with status := OrderStatus.filled } else o)
          p.orders (TCL.managePosition p price c).orders ∧
        (TCL.managePosition p price c).total_size
          = p.total_size + sizeSum (newlyFilled p price) ∧
        (TCL.managePosition p price c).avg_entry * (TCL.managePosition p price c).total_size
          = (if 0 < p.total_size then p.avg_entry * p.total_size else 0)
            + notionalSum (newlyFilled p price) ∧
        (TCL.managePosition p price c).tp
          = ((newlyFilled p price).getLast?).elim p.tp (fun o => o.tp))) ∧
      List.Forall₂
        (fun o o2 => o2 = if fillsNow p.side price o then { o with status := OrderStatus.filled } else o)
        p.orders (SMOG.managePosition p price c).orders := by
  constructor
  · intro hg hts hsz
    have hmo : TCL.managePosition p price c
        = TCL.applyBreakeven
            { (TCL.fillLoop p.side price p p.orders).1 with
                orders := (TCL.fillLoop p.side price p p.orders).2 } c := by
      unfold TCL.managePosition
      rw [if_neg (by simp [hg])]
    refine ⟨?_, ?_, ?_, ?_⟩
    · rw [hmo, TCL.applyBreakeven_orders]
      exact TCL.fillLoop_orders p.side p.orders p price
    · rw [hmo, TCL.applyBreakeven_total]
      exact TCL.fillLoop_total p.side p.orders p price
    · rw [hmo, TCL.applyBreakeven_avg, TCL.applyBreakeven_total]
      have hkey : ({ (TCL.fillLoop p.side price p p.orders).1 with
            orders := (TCL.fillLoop p.side price p p.orders).2 } : Position).avg_entry
            * ({ (TCL.fillLoop p.side price p p.orders).1 with
                orders := (TCL.fillLoop p.side price p p.orders).2 } : Position).total_size
          = notionalOf (TCL.fillLoop p.side price p p.orders).1 := by
        show (TCL.fillLoop p.side price p p.orders).1.avg_entry
            * (TCL.fillLoop p.side price p p.orders).1.total_size
          = notionalOf (TCL.fillLoop p.side price p p.orders).1
        unfold notionalOf
        by_cases hpos : 0 < (TCL.fillLoop p.side price p p.orders).1.total_size
        · rw [if_pos hpos]
        · rw [if_neg hpos]
          have h0 : (TCL.fillLoop p.side price p p.orders).1.total_size = 0 :=
            le_antisymm (not_lt.mp hpos)
              (TCL.fillLoop_total_nonneg p.side p.orders p price hts hsz)
          rw [h0, mul_zero]
      rw [hkey, TCL.fillLoop_notional p.side p.orders p price hts hsz]
      rfl
    · rw [hmo, TCL.applyBreakeven_tp]
      show (TCL.fillLoop p.side price p p.orders).1.tp = _
      rw [TCL.fillLoop_tp, lastTp_eq_getLast]
      rfl
  · have hmo : SMOG.managePosition p price c
        = SMOG.applyTrail
            { (SMOG.fillLoop p.side price p p.orders).1 with
                orders := (SMOG.fillLoop p.side price p p.orders).2 } c := rfl
    rw [hmo, SMOG.applyTrail_orders]
    exact SMOG.smogFillLoop_orders p.side p.orders p price

/-- Witness for C5: both pending orders of `c5Pos` are crossed at price 97, so
both fill on the same tick; the accounting and the tp carry follow the
theorem's conclusion at this concrete input. -/
theorem fill_rule_tp_carry_c5_witness :
    (TCL.managePosition c5Pos 97 c5Candles).total_size
        = c5Pos.total_size + sizeSum (newlyFilled c5Pos 97) ∧
      (TCL.managePosition c5Pos 97 c5Candles).tp
        = ((newlyFilled c5Pos 97).getLast?).elim c5Pos.tp (fun o => o.tp) :=
  ⟨((fill_rule_tp_carry_c5 c5Pos 97 c5Candles).1
      (by norm_num [TCL.gateFires, c5Pos]) (by norm_num [c5Pos])
      (by norm_num [c5Pos, List.forall_mem_cons])).2.1,
    ((fill_rule_tp_carry_c5 c5Pos 97 c5Candles).1
      (by norm_num [TCL.gateFires, c5Pos]) (by norm_num [c5Pos])
      (by norm_num [c5Pos, List.forall_mem_cons])).2.2.2⟩


/-- Claim C9: ADX threshold boundary — `TCLStrategy.detect_setup` rejects on
the ADX filter only when the latest ADX is strictly below `min_adx` (if every
other filter passes and ADX ≥ min_adx, a setup is returned, so equality
passes), and it returns no setup whenever ADX < min_adx; while
`SMOGStrategy.detect_setup` rejects whenever the latest ADX is ≥
`adx_threshold` (equality fails).  Proved for every implementation of the
indicator functions. -/
theorem adx_threshold_boundary_c9 :
    (∀ (ind : Indicators) (cfg : TCL.TclConfig) (c : Candles) (d : Side),
      200 ≤ c.close.length →
      ind.detect_trend c.close (ind.ema c.close 9) (ind.ema c.close 21) (ind.ema c.close 50)
          (ind.ema c.close 200) = some d →
      cfg.min_adx ≤ TCL.currentAdx ind cfg c →
      cfg.min_trend_pct ≤ ind.trend_magnitude (ind.find_trend_extremes c.high c.low d 100).1
          (ind.find_trend_extremes c.high c.low d 100).2 →
      ind.is_parabolic c.close = false →
      (d = Side.long → TCL.priorHigh c < TCL.recentHigh c) →
      (d = Side.short → TCL.recentLow c < TCL.priorLow c) →
      (TCL.detectSetup ind cfg c).isSome = true) ∧
      (∀ (ind : Indicators) (cfg : TCL.TclConfig) (c : Candles),
        TCL.currentAdx ind cfg c < cfg.min_adx → TCL.detectSetup ind cfg c = none) ∧
      (∀ (ind : Indicators) (cfg : SMOG.SmogConfig) (c : Candles),
        50 ≤ c.close.length → cfg.adx_threshold ≤ SMOG.currentAdx ind cfg c →
        SMOG.detectSetup ind cfg c = none) := by
  refine ⟨?_, ?_, ?_⟩
  · intro ind cfg c d h200 htrend hadx hmag hpara hlong hshort
    unfold TCL.detectSetup
    rw [if_neg (not_lt.mpr h200)]
    dsimp only
    rw [htrend]
    dsimp only
    rw [if_neg (not_lt.mpr hadx), if_neg (not_lt.mpr hmag), if_neg (by simp [hpara]),
      if_neg (fun hc => absurd hc.2 (not_le.mpr (hlong hc.1))),
      if_neg (fun hc => absurd hc.2 (not_le.mpr (hshort hc.1)))]
    rfl
  · intro ind cfg c h
    unfold TCL.detectSetup
    by_cases h200 : c.close.length < 200
    · rw [if_pos h200]
    · rw [if_neg h200]
      dsimp only
      cases htrend : ind.detect_trend c.close (ind.ema c.close 9) (ind.ema c.close 21)
          (ind.ema c.close 50) (ind.ema c.close 200) with
      | none => rfl
      | some d =>
        dsimp only
        rw [if_pos h]
  · intro ind cfg c h50 hadx
    unfold SMOG.detectSetup
    rw [if_neg (not_lt.mpr h50)]
    dsimp only
    rw [if_pos hadx]

set_option maxRecDepth 100000 in
/-- Witness for C9: with latest ADX exactly at the TCL default threshold (20)
and all other filters passing, a TCL setup is produced; with latest ADX
exactly at the SMOG default threshold (25), SMOG returns no setup. -/
theorem adx_threshold_boundary_c9_witness :
    (TCL.detectSetup c9Ind TCL.tclDefault c9Candles).isSome = true ∧
      SMOG.detectSetup c9IndSmog SMOG.smogDefault c9Candles = none :=
  ⟨adx_threshold_boundary_c9.1 c9Ind TCL.tclDefault c9Candles Side.long
      (by norm_num [c9Candles]) rfl
      (by norm_num [TCL.currentAdx, c9Ind, TCL.tclDefault])
      (by norm_num [c9Ind, TCL.tclDefault]) rfl
      (fun _ => by
        norm_num [TCL.priorHigh, TCL.recentHigh, maxList, lastN, c9Candles, List.replicate])
      (fun h => Side.noConfusion h),
    adx_threshold_boundary_c9.2.2 c9IndSmog SMOG.smogDefault c9Candles
      (by norm_num [c9Candles])
      (by norm_num [SMOG.currentAdx, c9IndSmog, c9Ind, SMOG.smogDefault])⟩

end BtcPerp
